import Mathlib

set_option maxRecDepth 100000

/-!
Verification of the `usdt_balance_checker` repository against its
natural-language specification.

The Go sources are shallowly embedded as executable Lean definitions:
  * `tron/address.go`  — Base58 decoding, checksum validation, hex encodings
  * `tron/api.go`      — retry loop, response checking, balance formatting
  * `RateLimiter.Wait` (token bucket) — explicit state passing with the two
    wall-clock samples (`Wait` reads the clock before and after its sleep)
    passed as parameters
  * `resource/resourcefile.go` `GetNextKey` — credential pool rotation
  * `core/query.go`    — `QueryAddresses` worker pool (modelled for
    `maxConcurrent = 1` as a function of the nondeterministic schedule
    choices), `GetStats`

Machine integers are `Nat`/`Int` (no overflow is reachable in the embedded
fragments); fallible Go functions return `Option`/`Except`.
-/

namespace UsdtChecker

/-! ## Byte and hex utilities (models of `encoding/hex` and Go decimal printing) -/

/-- Lowercase hex digit for a value `< 16` (model of `encoding/hex` digits). -/
def hexChar (n : Nat) : Char :=
  if n < 10 then Char.ofNat (48 + n) else Char.ofNat (87 + n)

/-- Model of Go `hex.EncodeToString`: two lowercase hex characters per byte. -/
def hexEncode (bs : List Nat) : List Char :=
  bs.flatMap fun b => [hexChar ((b / 16) % 16), hexChar (b % 16)]

/-- Decimal digit character. -/
def decChar (d : Nat) : Char := Char.ofNat (48 + d)

/-- Big-endian decimal digits of `n`, empty for `0` (`fuel ≥ n` suffices). -/
def decDigitsAux : Nat → Nat → List Char
  | 0, _ => []
  | fuel + 1, n =>
      if n = 0 then [] else decDigitsAux fuel (n / 10) ++ [decChar (n % 10)]

/-- Big-endian decimal digits of `n`, empty for `0`. -/
def decDigits (n : Nat) : List Char := decDigitsAux n n

/-- Model of Go `%d` / `big.Int.String` for non-negative values:
standard decimal rendering, `"0"` for zero. -/
def decRepr (n : Nat) : List Char :=
  if n = 0 then ['0'] else decDigits n

/-! ## Base58 (model of `btcsuite/btcutil/base58.Decode`)

The Go decoder works on the raw bytes of the input string; inputs are
therefore `List Nat` byte strings here.  An invalid character anywhere makes
the whole decode return the empty byte slice.  The numeric value is written
out as a minimal big-endian byte string, prefixed by one zero byte per
leading `'1'` (byte 49) of the input. -/

/-- Value of one Base58 alphabet byte
(`123456789ABCDEFGHJKLMNPQRSTUVWXYZabcdefghijkmnopqrstuvwxyz`),
`none` for a byte outside the alphabet (the Go table stores 255 there). -/
def b58Value (b : Nat) : Option Nat :=
  let alpha : List Nat :=
    [49, 50, 51, 52, 53, 54, 55, 56, 57,
     65, 66, 67, 68, 69, 70, 71, 72,
     74, 75, 76, 77, 78,
     80, 81, 82, 83, 84, 85, 86, 87, 88, 89, 90,
     97, 98, 99, 100, 101, 102, 103, 104, 105, 106, 107,
     109, 110, 111, 112, 113, 114, 115, 116, 117, 118, 119, 120, 121, 122]
  (alpha.indexOf? b).map id

/-- Numeric value of a Base58 digit string, `none` if any byte is invalid. -/
def b58Nat (s : List Nat) : Option Nat :=
  s.foldl (fun acc b => acc.bind fun v => (b58Value b).map fun d => v * 58 + d)
    (some 0)

/-- Big-endian byte string of `n` with enough fuel (`fuel ≥ n` suffices). -/
def natBytesBEAux : Nat → Nat → List Nat
  | 0, _ => []
  | fuel + 1, n =>
      if n = 0 then [] else natBytesBEAux fuel (n / 256) ++ [n % 256]

/-- Minimal big-endian byte string of `n` (empty for `0`),
model of `big.Int.Bytes`. -/
def natBytesBE (n : Nat) : List Nat := natBytesBEAux n n

/-- Model of `base58.Decode`: empty result on any invalid byte, otherwise
leading-`'1'` zero bytes followed by the big-endian value bytes. -/
def base58Decode (s : List Nat) : List Nat :=
  match b58Nat s with
  | none => []
  | some v => List.replicate (s.takeWhile (· == 49)).length 0 ++ natBytesBE v

/-! ## SHA-256 (model of Go `crypto/sha256.Sum256`)

Standard FIPS 180-4 SHA-256 over byte strings, with 32-bit words as `Nat`
reduced mod `2 ^ 32`. -/

namespace SHA256

def M32 : Nat := 4294967296

/-- 32-bit right rotation. -/
def rotr (x k : Nat) : Nat := ((x >>> k) ||| (x <<< (32 - k))) % M32

def ch (x y z : Nat) : Nat := (x &&& y) ^^^ ((x ^^^ 4294967295) &&& z)

def maj (x y z : Nat) : Nat := (x &&& y) ^^^ (x &&& z) ^^^ (y &&& z)

def bsig0 (x : Nat) : Nat := rotr x 2 ^^^ rotr x 13 ^^^ rotr x 22

def bsig1 (x : Nat) : Nat := rotr x 6 ^^^ rotr x 11 ^^^ rotr x 25

def ssig0 (x : Nat) : Nat := rotr x 7 ^^^ rotr x 18 ^^^ (x >>> 3)

def ssig1 (x : Nat) : Nat := rotr x 17 ^^^ rotr x 19 ^^^ (x >>> 10)

/-- The 64 round constants of FIPS 180-4 (decimal). -/
def K : List Nat :=
  [1116352408, 1899447441, 3049323471, 3921009573,
   961987163, 1508970993, 2453635748, 2870763221,
   3624381080, 310598401, 607225278, 1426881987,
   1925078388, 2162078206, 2614888103, 3248222580,
   3835390401, 4022224774, 264347078, 604807628,
   770255983, 1249150122, 1555081692, 1996064986,
   2554220882, 2821834349, 2952996808, 3210313671,
   3336571891, 3584528711, 113926993, 338241895,
   666307205, 773529912, 1294757372, 1396182291,
   1695183700, 1986661051, 2177026350, 2456956037,
   2730485921, 2820302411, 3259730800, 3345764771,
   3516065817, 3600352804, 4094571909, 275423344,
   430227734, 506948616, 659060556, 883997877,
   958139571, 1322822218, 1537002063, 1747873779,
   1955562222, 2024104815, 2227730452, 2361852424,
   2428436474, 2756734187, 3204031479, 3329325298]

structure St where
  a : Nat
  b : Nat
  c : Nat
  d : Nat
  e : Nat
  f : Nat
  g : Nat
  h : Nat

/-- The initial hash state of FIPS 180-4 (decimal). -/
def initH : St :=
  ⟨1779033703, 3144134277, 1013904242, 2773480762,
   1359893119, 2600822924, 528734635, 1541459225⟩

/-- 8-byte big-endian encoding (for the length field). -/
def be8 (n : Nat) : List Nat :=
  [(n >>> 56) % 256, (n >>> 48) % 256, (n >>> 40) % 256, (n >>> 32) % 256,
   (n >>> 24) % 256, (n >>> 16) % 256, (n >>> 8) % 256, n % 256]

/-- 4-byte big-endian encoding of a 32-bit word. -/
def be4 (n : Nat) : List Nat :=
  [(n >>> 24) % 256, (n >>> 16) % 256, (n >>> 8) % 256, n % 256]

/-- FIPS padding: `0x80`, zeros to 56 mod 64, then the bit length. -/
def padMsg (msg : List Nat) : List Nat :=
  msg ++ 128 :: List.replicate ((119 - msg.length % 64) % 64) 0
      ++ be8 (msg.length * 8)

/-- Group bytes into big-endian 32-bit words. -/
def toWordsBE : List Nat → List Nat
  | b0 :: b1 :: b2 :: b3 :: rest =>
      ((b0 <<< 24) ||| (b1 <<< 16) ||| (b2 <<< 8) ||| b3) :: toWordsBE rest
  | _ => []

/-- Split into 64-byte blocks (`fuel ≥ l.length` suffices). -/
def blocksAux : Nat → List Nat → List (List Nat)
  | 0, _ => []
  | fuel + 1, l => if l = [] then [] else l.take 64 :: blocksAux fuel (l.drop 64)

/-- Split into 64-byte blocks. -/
def blocks (l : List Nat) : List (List Nat) := blocksAux l.length l

/-- Extend the 16 message words by `k` more schedule words. -/
def extendW : Nat → List Nat → List Nat
  | 0, ws => ws
  | k + 1, ws =>
      let i := ws.length
      let w := (ssig1 (ws.getD (i - 2) 0) + ws.getD (i - 7) 0 +
                ssig0 (ws.getD (i - 15) 0) + ws.getD (i - 16) 0) % M32
      extendW k (ws ++ [w])

/-- One compression round. -/
def round (st : St) (kw : Nat × Nat) : St :=
  let t1 := (st.h + bsig1 st.e + ch st.e st.f st.g + kw.1 + kw.2) % M32
  let t2 := (bsig0 st.a + maj st.a st.b st.c) % M32
  ⟨(t1 + t2) % M32, st.a, st.b, st.c, (st.d + t1) % M32, st.e, st.f, st.g⟩

/-- Compress one 64-byte block into the running state. -/
def compress (st : St) (block : List Nat) : St :=
  let ws := extendW 48 (toWordsBE block)
  let r := (K.zip ws).foldl round st
  ⟨(st.a + r.a) % M32, (st.b + r.b) % M32, (st.c + r.c) % M32,
   (st.d + r.d) % M32, (st.e + r.e) % M32, (st.f + r.f) % M32,
   (st.g + r.g) % M32, (st.h + r.h) % M32⟩

end SHA256

/-- SHA-256 digest (32 bytes) of a byte string, model of `sha256.Sum256`. -/
def sha256 (msg : List Nat) : List Nat :=
  let f := (SHA256.blocks (SHA256.padMsg msg)).foldl SHA256.compress SHA256.initH
  SHA256.be4 f.a ++ SHA256.be4 f.b ++ SHA256.be4 f.c ++ SHA256.be4 f.d ++
  SHA256.be4 f.e ++ SHA256.be4 f.f ++ SHA256.be4 f.g ++ SHA256.be4 f.h

/-! ## Address codec (translated from `tron/address.go`) -/

/-- `AddressToParameter`: Base58-decode, require at least 21 bytes, take the
20-byte body `decoded[1:21]`, left-pad to 32 bytes, hex-encode.
`none` models the `"无效的 TRON 地址"` error. -/
def addressToParameter (address : List Nat) : Option (List Char) :=
  let decoded := base58Decode address
  if decoded.length < 21 then none
  else some (hexEncode (List.replicate 12 0 ++ (decoded.drop 1).take 20))

/-- The checksum comparison loop of `ValidateAddress` on decoded bytes of
length 25: bytes 21..24 against the first 4 bytes of the double SHA-256 of
bytes 0..20. -/
def checksumOk (decoded : List Nat) : Bool :=
  let secondHash := sha256 (sha256 (decoded.take 21))
  (List.range 4).all fun i => decoded.getD (21 + i) 0 == secondHash.getD i 0

/-- The body of `ValidateAddress` after Base58 decoding. -/
def validateDecoded (decoded : List Nat) : Bool :=
  if decoded.length ≠ 25 then false else checksumOk decoded

/-- `ValidateAddress`: decode, require exactly 25 bytes, check the double
SHA-256 checksum. -/
def validateAddress (address : List Nat) : Bool :=
  validateDecoded (base58Decode address)

/-- `AddressToHex`: Base58-decode, require at least 21 bytes, hex-encode the
first 21 bytes (version byte + body). -/
def addressToHex (address : List Nat) : Option (List Char) :=
  let decoded := base58Decode address
  if decoded.length < 21 then none
  else some (hexEncode (decoded.take 21))

/-- Bytes of the valid address `TR7NHqjeKQxGTCi8q8ZY4pL8otSzgjLj6t`
(the USDT contract constant from `tron/api.go`). -/
def usdtAddr : List Nat :=
  [84, 82, 55, 78, 72, 113, 106, 101, 75, 81, 120, 71, 84, 67, 105, 56,
   113, 56, 90, 89, 52, 112, 76, 56, 111, 116, 83, 122, 103, 106, 76,
   106, 54, 116]

/-- The same string with its last character changed to `u`: still decodes to
25 bytes but the checksum no longer matches. -/
def badChecksumAddr : List Nat :=
  [84, 82, 55, 78, 72, 113, 106, 101, 75, 81, 120, 71, 84, 67, 105, 56,
   113, 56, 90, 89, 52, 112, 76, 56, 111, 116, 83, 122, 103, 106, 76,
   106, 54, 117]

/-! ## Lemmas about the codec -/

theorem sha256_length (msg : List Nat) : (sha256 msg).length = 32 := by
  simp [sha256, SHA256.be4]

theorem hexEncode_append (a b : List Nat) :
    hexEncode (a ++ b) = hexEncode a ++ hexEncode b := by
  simp [hexEncode]

theorem hexEncode_length (bs : List Nat) :
    (hexEncode bs).length = 2 * bs.length := by
  induction bs with
  | nil => rfl
  | cons x t ih => simp [hexEncode] at ih ⊢; omega

/-- Characters produced by `hexEncode` are lowercase hex digits. -/
theorem hexEncode_chars (bs : List Nat) :
    ∀ c ∈ hexEncode bs,
      ('0' ≤ c ∧ c ≤ '9') ∨ ('a' ≤ c ∧ c ≤ 'f') := by
  intro c hc
  rw [hexEncode, List.mem_flatMap] at hc
  obtain ⟨b, _, hb⟩ := hc
  have key : ∀ n : Nat, n < 16 →
      ('0' ≤ hexChar n ∧ hexChar n ≤ '9') ∨
      ('a' ≤ hexChar n ∧ hexChar n ≤ 'f') := by decide
  simp only [List.mem_cons, List.mem_singleton, List.not_mem_nil, or_false] at hb
  rcases hb with rfl | rfl
  · exact key _ (Nat.mod_lt _ (by omega))
  · exact key _ (Nat.mod_lt _ (by omega))

/-- Setting an element at or beyond the `take` boundary leaves the `take`
unchanged. -/
theorem take_set_of_le (v : Nat) (l : List Nat) :
    ∀ i n, n ≤ i → (l.set i v).take n = l.take n := by
  induction l with
  | nil => intro i n _; simp
  | cons a t ih =>
    intro i n hn
    cases i with
    | zero =>
      have : n = 0 := Nat.le_zero.mp hn
      subst this; simp
    | succ j =>
      cases n with
      | zero => simp
      | succ m => simpa [List.set, List.take] using ih j m (Nat.le_of_succ_le_succ hn)

/-- `checksumOk` as a pointwise statement. -/
theorem checksumOk_iff (d : List Nat) :
    checksumOk d = true ↔
      ∀ i, i < 4 →
        d.getD (21 + i) 0 = (sha256 (sha256 (d.take 21))).getD i 0 := by
  simp only [checksumOk, List.all_eq_true, List.mem_range, beq_iff_eq]

/-- The pointwise checksum statement is the `drop`/`take` equality when the
decoded payload has length 25. -/
theorem checksum_drop_take (d : List Nat) (hd : d.length = 25) :
    (∀ i, i < 4 →
        d.getD (21 + i) 0 = (sha256 (sha256 (d.take 21))).getD i 0) ↔
      d.drop 21 = (sha256 (sha256 (d.take 21))).take 4 := by
  have hsh := sha256_length (sha256 (d.take 21))
  constructor
  · intro h
    apply List.ext_getElem
    · simp [hd, hsh]
    · intro n h1 h2
      have hn4 : n < 4 := by simp [hd] at h1; omega
      have hdl : 21 + n < d.length := by omega
      have hsl : n < (sha256 (sha256 (d.take 21))).length := by omega
      have := h n hn4
      rw [List.getD_eq_getElem _ _ hdl, List.getD_eq_getElem _ _ hsl] at this
      rw [List.getElem_drop, List.getElem_take]
      exact this
  · intro h i hi
    have hdl : 21 + i < d.length := by omega
    have hsl : i < (sha256 (sha256 (d.take 21))).length := by omega
    rw [List.getD_eq_getElem _ _ hdl, List.getD_eq_getElem _ _ hsl]
    have hdrop : i < (d.drop 21).length := by simp [hd]; omega
    have hdrop2 : i < ((sha256 (sha256 (d.take 21))).take 4).length := by
      simp [hd] at hdrop ⊢
      omega
    have hg := List.getElem_drop d (i := 21) (j := i) (h := hdrop)
    calc d[21 + i] = (d.drop 21)[i] := hg.symm
      _ = ((sha256 (sha256 (d.take 21))).take 4)[i] := List.getElem_of_eq h hdrop
      _ = (sha256 (sha256 (d.take 21)))[i] := List.getElem_take _

/-! ## C7 / C8 / C9 theorems -/

/-- **C7** — `ValidateAddress` returns true iff the Base58 decoding is
exactly 25 bytes and its last 4 bytes equal the first 4 bytes of the double
SHA-256 of its first 21 bytes; it is a total Boolean function (malformed
input yields `false`), and changing any single checksum byte of a payload
that validates makes the check fail. -/
theorem validateAddress_checksum_spec :
    (∀ s : List Nat,
      validateAddress s = true ↔
        ((base58Decode s).length = 25 ∧
          (base58Decode s).drop 21 =
            (sha256 (sha256 ((base58Decode s).take 21))).take 4)) ∧
    (∀ s : List Nat, ∀ i v : Nat,
      validateAddress s = true → 21 ≤ i → i < 25 →
      v ≠ (base58Decode s).getD i 0 →
      validateDecoded ((base58Decode s).set i v) = false) := by
  have main : ∀ d : List Nat,
      validateDecoded d = true ↔
        (d.length = 25 ∧
          d.drop 21 = (sha256 (sha256 (d.take 21))).take 4) := by
    intro d
    by_cases hd : d.length = 25
    · rw [validateDecoded, if_neg (by omega)]
      rw [checksumOk_iff, checksum_drop_take d hd]
      simp [hd]
    · rw [validateDecoded, if_pos (by omega)]
      simp [hd]
  constructor
  · intro s; exact main (base58Decode s)
  · intro s i v hval h21 h25 hv
    rw [validateAddress] at hval
    set d := base58Decode s with hdd
    have hspec := (main d).mp hval
    obtain ⟨hlen, _⟩ := hspec
    have hcheck : checksumOk d = true := by
      rw [validateDecoded, if_neg (by omega)] at hval
      exact hval
    have horig := (checksumOk_iff d).mp hcheck (i - 21) (by omega)
    apply Bool.eq_false_iff.mpr
    intro habs
    have hlen2 : (d.set i v).length = 25 := by simp [hlen]
    have hcheck2 : checksumOk (d.set i v) = true := by
      rw [validateDecoded, if_neg (by omega)] at habs
      exact habs
    have htake : (d.set i v).take 21 = d.take 21 := take_set_of_le v d i 21 h21
    have hnew := (checksumOk_iff (d.set i v)).mp hcheck2 (i - 21) (by omega)
    rw [htake] at hnew
    have hi_eq : 21 + (i - 21) = i := by omega
    rw [hi_eq] at hnew horig
    have hub : i < (d.set i v).length := by omega
    rw [List.getD_eq_getElem _ _ hub, List.getElem_set_self] at hnew
    have hub2 : i < d.length := by omega
    rw [List.getD_eq_getElem _ _ hub2] at horig
    rw [List.getD_eq_getElem _ _ hub2] at hv
    exact hv (hnew.trans horig.symm)

/-- **C7 witness** — the USDT contract address validates; corrupting one
checksum byte of its decoded payload fails the check. -/
theorem validateAddress_checksum_spec_witness :
    validateAddress usdtAddr = true ∧
      validateDecoded ((base58Decode usdtAddr).set 24 0) = false :=
  ⟨by decide,
   validateAddress_checksum_spec.2 usdtAddr 24 0 (by decide) (by omega)
     (by omega) (by decide)⟩

/-- A character is a lowercase hexadecimal digit. -/
def LowerHex (c : Char) : Prop :=
  ('0' ≤ c ∧ c ≤ '9') ∨ ('a' ≤ c ∧ c ≤ 'f')

/-- **C8** — when `AddressToParameter` succeeds it yields 64 lowercase hex
characters, the first 24 of them `'0'` and the last 40 the hex encoding of
decoded bytes 1..20; when `AddressToHex` succeeds it yields 42 lowercase hex
characters encoding the first 21 decoded bytes; each fails exactly when the
Base58 decoding has fewer than 21 bytes. -/
theorem addressEncodings_spec :
    ∀ s : List Nat,
      (addressToParameter s = none ↔ (base58Decode s).length < 21) ∧
      (∀ r, addressToParameter s = some r →
          r.length = 64 ∧
          r.take 24 = List.replicate 24 '0' ∧
          r.drop 24 = hexEncode (((base58Decode s).drop 1).take 20) ∧
          ∀ c ∈ r, LowerHex c) ∧
      (addressToHex s = none ↔ (base58Decode s).length < 21) ∧
      (∀ r, addressToHex s = some r →
          r.length = 42 ∧
          r = hexEncode ((base58Decode s).take 21) ∧
          ∀ c ∈ r, LowerHex c) := by
  intro s
  set d := base58Decode s with hd
  by_cases hlen : d.length < 21
  · refine ⟨by simp [addressToParameter, hlen], ?_, by simp [addressToHex, hlen], ?_⟩
    · intro r hr; rw [addressToParameter, ← hd, if_pos hlen] at hr; cases hr
    · intro r hr; rw [addressToHex, ← hd, if_pos hlen] at hr; cases hr
  · have hbody : (List.replicate 12 0 ++ (d.drop 1).take 20).length = 32 := by
      simp; omega
    have hzeros : hexEncode (List.replicate 12 (0 : Nat)) =
        List.replicate 24 '0' := by decide
    refine ⟨by simp [addressToParameter, hlen], ?_, by simp [addressToHex, hlen], ?_⟩
    · intro r hr
      rw [addressToParameter, ← hd, if_neg hlen] at hr
      have hr' : r = hexEncode (List.replicate 12 0 ++ (d.drop 1).take 20) :=
        (Option.some_inj.mp hr).symm
      subst hr'
      refine ⟨by rw [hexEncode_length, hbody], ?_, ?_, hexEncode_chars _⟩
      · rw [hexEncode_append, hzeros]
        rw [List.take_append_of_le_length (by simp)]
        simp
      · rw [hexEncode_append, hzeros]
        rw [List.drop_append_of_le_length (by simp)]
        simp
    · intro r hr
      rw [addressToHex, ← hd, if_neg hlen] at hr
      have hr' : r = hexEncode (d.take 21) := (Option.some_inj.mp hr).symm
      subst hr'
      refine ⟨?_, rfl, hexEncode_chars _⟩
      rw [hexEncode_length]
      simp; omega

/-- **C8 witness** — concrete success of both encodings on the USDT
address, with the claimed lengths. -/
theorem addressEncodings_spec_witness :
    ((addressToParameter usdtAddr).getD []).length = 64 ∧
      ((addressToHex usdtAddr).getD []).length = 42 := by
  constructor
  · exact ((addressEncodings_spec usdtAddr).2.1
      ((addressToParameter usdtAddr).getD []) (by decide)).1
  · exact ((addressEncodings_spec usdtAddr).2.2.2
      ((addressToHex usdtAddr).getD []) (by decide)).1

/-- **C9** — the conversions do not require a valid checksum: whenever the
Base58 decoding has at least 21 bytes both conversions succeed with the
encodings of the leading decoded bytes, and they fail only when the decoding
has fewer than 21 bytes. -/
theorem addressEncodings_no_validation :
    ∀ s : List Nat,
      (21 ≤ (base58Decode s).length →
        addressToParameter s =
          some (hexEncode
            (List.replicate 12 0 ++ ((base58Decode s).drop 1).take 20)) ∧
        addressToHex s = some (hexEncode ((base58Decode s).take 21))) ∧
      (addressToParameter s = none → (base58Decode s).length < 21) ∧
      (addressToHex s = none → (base58Decode s).length < 21) := by
  intro s
  refine ⟨?_, ?_, ?_⟩
  · intro h
    constructor
    · rw [addressToParameter, if_neg (by omega)]
    · rw [addressToHex, if_neg (by omega)]
  · intro h
    by_contra hc
    rw [addressToParameter, if_neg hc] at h
    cases h
  · intro h
    by_contra hc
    rw [addressToHex, if_neg hc] at h
    cases h

/-- **C9 witness** — a string whose checksum is wrong (so `ValidateAddress`
rejects it) still converts through both operations. -/
theorem addressEncodings_no_validation_witness :
    validateAddress badChecksumAddr = false ∧
      (addressToParameter badChecksumAddr).isSome = true ∧
      (addressToHex badChecksumAddr).isSome = true := by
  refine ⟨by decide, ?_, ?_⟩
  · rcases (addressEncodings_no_validation badChecksumAddr).1 (by decide) with ⟨h, _⟩
    rw [h]; rfl
  · rcases (addressEncodings_no_validation badChecksumAddr).1 (by decide) with ⟨_, h⟩
    rw [h]; rfl

/-! ## Balance parsing and formatting (`tron/api.go` lines 203–237) -/

/-- Model of `unicode.IsSpace` for the space characters of the Latin-1
range (the ones `strings.TrimSpace` strips). -/
def isGoSpace (c : Char) : Bool :=
  c.toNat == 32 || c.toNat == 9 || c.toNat == 10 || c.toNat == 11 ||
  c.toNat == 12 || c.toNat == 13 || c.toNat == 133 || c.toNat == 160

/-- Model of `strings.TrimSpace`: strip spaces from both ends. -/
def trimSpace (s : List Char) : List Char :=
  ((s.dropWhile isGoSpace).reverse.dropWhile isGoSpace).reverse

/-- Hexadecimal digit (both cases), as `big.Int.SetString` base 16 accepts. -/
def isHexDigitChar (c : Char) : Bool :=
  (48 ≤ c.toNat && c.toNat ≤ 57) ||
  (97 ≤ c.toNat && c.toNat ≤ 102) ||
  (65 ≤ c.toNat && c.toNat ≤ 70)

/-- Value of a hexadecimal digit character. -/
def hexDigitVal (c : Char) : Nat :=
  if 48 ≤ c.toNat && c.toNat ≤ 57 then c.toNat - 48
  else if 97 ≤ c.toNat && c.toNat ≤ 102 then c.toNat - 87
  else c.toNat - 55

/-- Base-16 value of a digit string. -/
def hexNat (s : List Char) : Nat :=
  s.foldl (fun a c => a * 16 + hexDigitVal c) 0

/-- Model of `big.Int.SetString(s, 16)` on unsigned input: succeeds iff the
string is nonempty and all hexadecimal digits (the sign handling of
`SetString` is irrelevant to the digit strings the claims quantify over). -/
def hexParse (s : List Char) : Option Nat :=
  if s ≠ [] ∧ s.all isHexDigitChar then some (hexNat s) else none

/-- Left zero-padding to a given width, model of Go `%0*d`. -/
def padLeftZeros (w : Nat) (s : List Char) : List Char :=
  List.replicate (w - s.length) '0' ++ s

/-- Strip trailing `'0'` characters, model of `strings.TrimRight(s, "0")`. -/
def trimRightZeros (s : List Char) : List Char :=
  (s.reverse.dropWhile (· == '0')).reverse

/-- `formatDecimals` from `tron/api.go` (for the non-negative values that
reach it): integer part, then the zero-padded fractional part trimmed of
trailing zeros, the decimal point omitted when nothing remains. -/
def formatDecimals (n : Nat) (decimals : Nat) : List Char :=
  if decimals = 0 then decRepr n
  else
    let tenPow := 10 ^ decimals
    let intPart := n / tenPow
    let fracPart := n % tenPow
    let fracStr := trimRightZeros (padLeftZeros decimals (decRepr fracPart))
    if fracStr = [] then decRepr intPart
    else decRepr intPart ++ '.' :: fracStr

/-- The balance-rendering tail of `QueryBalanceWithContext` (lines 203–221):
trim the first `constant_result` entry, treat the empty string as `"0"`,
parse base 16, format with 6 decimals.  `none` models the
`"无法解析hex余额"` error. -/
def renderBalance (balanceHex : List Char) : Option (List Char) :=
  (hexParse
      (if trimSpace balanceHex = [] then ['0'] else trimSpace balanceHex)).map
    fun n => formatDecimals n 6

/-- The rendering described by the specification: the decimal digits of
`n / 10^6`, followed — only when `n % 10^6` is nonzero — by a point and the
6-digit zero-padded remainder stripped of its trailing zeros. -/
def specBalanceRendering (n : Nat) : List Char :=
  if n % 1000000 = 0 then decRepr (n / 1000000)
  else decRepr (n / 1000000) ++ '.' ::
    trimRightZeros (padLeftZeros 6 (decRepr (n % 1000000)))

/-! ### Lemmas for C6 -/

theorem dropWhile_eq_self_of_not (p : Char → Bool) (s : List Char)
    (h : ∀ c ∈ s, p c = false) : s.dropWhile p = s := by
  cases s with
  | nil => rfl
  | cons a t => simp [List.dropWhile, h a (by simp)]

theorem trimSpace_of_no_space (s : List Char)
    (h : ∀ c ∈ s, isGoSpace c = false) : trimSpace s = s := by
  rw [trimSpace, dropWhile_eq_self_of_not _ _ h,
      dropWhile_eq_self_of_not _ _ (by simpa using h), List.reverse_reverse]

theorem trimSpace_of_all_space (s : List Char)
    (h : ∀ c ∈ s, isGoSpace c = true) : trimSpace s = [] := by
  have h1 : s.dropWhile isGoSpace = [] :=
    List.dropWhile_eq_nil_iff.mpr (by simpa using h)
  rw [trimSpace, h1]
  rfl

theorem hexDigit_not_space (c : Char) (h : isHexDigitChar c = true) :
    isGoSpace c = false := by
  simp [isHexDigitChar] at h
  simp [isGoSpace]
  omega

/-- A nonzero number has a nonzero decimal digit. -/
theorem decDigitsAux_has_nonzero :
    ∀ fuel m : Nat, m ≠ 0 → m ≤ fuel →
      ∃ c ∈ decDigitsAux fuel m, ¬ c = '0' := by
  intro fuel
  induction fuel with
  | zero => intro m h hle; omega
  | succ k ih =>
    intro m h hle
    rw [decDigitsAux, if_neg h]
    by_cases hm : m % 10 = 0
    · have hq : m / 10 ≠ 0 := by omega
      have hdiv : m / 10 < m := Nat.div_lt_self (Nat.pos_of_ne_zero h) (by norm_num)
      have hqle : m / 10 ≤ k := by omega
      obtain ⟨c, hc, hne⟩ := ih (m / 10) hq hqle
      exact ⟨c, by simp [hc], hne⟩
    · refine ⟨decChar (m % 10), by simp, ?_⟩
      have hlt : m % 10 < 10 := Nat.mod_lt _ (by omega)
      have key : ∀ d : Nat, d < 10 → d ≠ 0 → ¬ decChar d = '0' := by decide
      exact key _ hlt hm

theorem trimRightZeros_eq_nil_iff (s : List Char) :
    trimRightZeros s = [] ↔ ∀ c ∈ s, c = '0' := by
  rw [trimRightZeros, List.reverse_eq_nil_iff, List.dropWhile_eq_nil_iff]
  simp

/-- The `fracStr == ""` test in `formatDecimals` is exactly the
`n % 10^6 = 0` test of the specification. -/
theorem trimmed_frac_nil_iff (m : Nat) (hm : m < 1000000) :
    trimRightZeros (padLeftZeros 6 (decRepr m)) = [] ↔ m = 0 := by
  constructor
  · intro h
    by_contra hne
    rw [trimRightZeros_eq_nil_iff] at h
    have hdig : ∃ c ∈ decDigits m, ¬ c = '0' := by
      have := decDigitsAux_has_nonzero m m hne (le_refl m)
      simpa [decDigits] using this
    obtain ⟨c, hc, hcne⟩ := hdig
    have : c = '0' := by
      apply h
      rw [padLeftZeros]
      have : decRepr m = decDigits m := by rw [decRepr, if_neg hne]
      rw [this]
      exact List.mem_append_right _ hc
    exact hcne this
  · intro h; subst h; decide

/-- **C6** — for every hexadecimal digit string (and for the
whitespace-only strings, treated as zero) the rendered balance is the exact
decimal rendering of the base-16 value scaled by `10^6`, exactly as the
specification describes it. -/
theorem renderBalance_exact :
    (∀ n : Nat, formatDecimals n 6 = specBalanceRendering n) ∧
    (∀ s : List Char, s ≠ [] → (∀ c ∈ s, isHexDigitChar c = true) →
      renderBalance s = some (specBalanceRendering (hexNat s))) ∧
    (∀ s : List Char, (∀ c ∈ s, isGoSpace c = true) →
      renderBalance s = some (specBalanceRendering 0)) := by
  have hfmt : ∀ n : Nat, formatDecimals n 6 = specBalanceRendering n := by
    intro n
    have hlt : n % 1000000 < 1000000 := Nat.mod_lt _ (by omega)
    rw [formatDecimals, if_neg (by omega), specBalanceRendering]
    simp only [show (10 : Nat) ^ 6 = 1000000 from rfl]
    by_cases hz : n % 1000000 = 0
    · rw [if_pos ((trimmed_frac_nil_iff _ hlt).mpr hz), if_pos hz]
    · rw [if_neg (fun h => hz ((trimmed_frac_nil_iff _ hlt).mp h)), if_neg hz]
  refine ⟨hfmt, ?_, ?_⟩
  · intro s hne hhex
    have hns : ∀ c ∈ s, isGoSpace c = false :=
      fun c hc => hexDigit_not_space c (hhex c hc)
    rw [renderBalance, trimSpace_of_no_space s hns, if_neg hne,
        hexParse, if_pos ⟨hne, List.all_eq_true.mpr hhex⟩]
    simp [hfmt]
  · intro s hsp
    rw [renderBalance, trimSpace_of_all_space s hsp, if_pos rfl,
        hexParse, if_pos (by decide)]
    decide

/-- **C6 witness** — a balance beyond 64-bit range
(`0xffffffffffffffffff` = 4722366482869645213695) renders exactly, and a
whitespace-only entry renders as zero. -/
theorem renderBalance_exact_witness :
    renderBalance
        ['f', 'f', 'f', 'f', 'f', 'f', 'f', 'f', 'f',
         'f', 'f', 'f', 'f', 'f', 'f', 'f', 'f', 'f'] =
      some (specBalanceRendering
        (hexNat ['f', 'f', 'f', 'f', 'f', 'f', 'f', 'f', 'f',
                 'f', 'f', 'f', 'f', 'f', 'f', 'f', 'f', 'f'])) ∧
    renderBalance [' ', ' '] = some (specBalanceRendering 0) ∧
    specBalanceRendering
        (hexNat ['f', 'f', 'f', 'f', 'f', 'f', 'f', 'f', 'f',
                 'f', 'f', 'f', 'f', 'f', 'f', 'f', 'f', 'f']) =
      ['4', '7', '2', '2', '3', '6', '6', '4', '8', '2', '8', '6', '9',
       '6', '4', '5', '.', '2', '1', '3', '6', '9', '5'] :=
  ⟨renderBalance_exact.2.1 _ (by decide) (by decide),
   renderBalance_exact.2.2 _ (by decide),
   by decide⟩

/-! ## Response checking (`tron/api.go` lines 160–201) -/

/-- The parsed response shape (the inline `apiResp` struct of
`QueryBalanceWithContext`): `constant_result`, the nested `result` object,
and the top-level `Error` / `Error Description` pair. -/
structure APIResp where
  constantResult : List String
  resultResult : Bool
  resultCode : String
  resultMessage : String
  topError : String
  topErrorDescription : String

/-- The fallback diagnostic the code computes for the top-level error
channel (`desc`): the error description, falling back to the error name. -/
def topErrorDiagnostic (r : APIResp) : String :=
  if r.topErrorDescription = "" then r.topError else r.topErrorDescription

/-- The fallback diagnostic the code computes for the failure-flag channel
(`errorMsg`): message, else code, else `"未知错误"`. -/
def resultDiagnostic (r : APIResp) : String :=
  if r.resultMessage ≠ "" then r.resultMessage
  else if r.resultCode ≠ "" then r.resultCode
  else "未知错误"

/-- The error-checking sequence of `QueryBalanceWithContext` after JSON
parsing: the top-level `Error` field is checked first, then the
`result.result` failure flag, then the missing-`constant_result` case;
`ok` carries `constant_result`.  The error strings are the exact arguments
the code passes to `errors.New` — the *format* strings: the diagnostics
computed above are discarded, never interpolated. -/
def checkResponse (r : APIResp) : Except String (List String) :=
  if r.topError ≠ "" then
    Except.error "API 错误: %s (完整响应: %s)"
  else if r.resultResult = false then
    Except.error "查询失败: result=false, code=%s, 完整响应: %s"
  else if 0 < r.constantResult.length then
    Except.ok r.constantResult
  else
    Except.error "查询失败: 响应中没有 constant_result (完整响应: %s)"

/-- A server response carrying a top-level error with a description. -/
def respTopError : APIResp :=
  ⟨[], true, "", "", "SIGERROR", "bad signature"⟩

/-- A server response with `result.result = false` and a message. -/
def respFlagError : APIResp :=
  ⟨[], false, "OTHER_ERROR", "server says no", "", ""⟩

/-- A response with both failure channels set at once. -/
def respBothChannels : APIResp :=
  ⟨["0a"], false, "", "flag message", "SIGERROR", "top description"⟩

/-- **C5** — the checking order and the fallback computation match the
specification, but the error surfaced to the caller is the literal
`errors.New` format string: the server-supplied diagnostic never appears in
the message.  Evaluated at concrete failing responses. -/
theorem checkResponse_discards_diagnostics :
    checkResponse respTopError = Except.error "API 错误: %s (完整响应: %s)" ∧
    topErrorDiagnostic respTopError = "bad signature" ∧
    ¬ (topErrorDiagnostic respTopError).data <:+:
        ("API 错误: %s (完整响应: %s)").data ∧
    checkResponse respFlagError =
      Except.error "查询失败: result=false, code=%s, 完整响应: %s" ∧
    resultDiagnostic respFlagError = "server says no" ∧
    ¬ (resultDiagnostic respFlagError).data <:+:
        ("查询失败: result=false, code=%s, 完整响应: %s").data ∧
    checkResponse respBothChannels =
      Except.error "API 错误: %s (完整响应: %s)" := by
  refine ⟨by rfl, by decide, by decide, by rfl, by decide, by decide, by rfl⟩

/-! ## HTTP retry loop (`tron/api.go` lines 106–158) -/

/-- Outcome of one `HTTPClient.Do` call: a transport error (in which case
the response is `nil`), or a response with a status code. -/
inductive DoResult where
  | transportErr : DoResult
  | resp : Nat → DoResult
deriving DecidableEq

/-- The retry loop with `maxRetries = 3`, as a function of the sequence of
`Do` outcomes.  Each iteration issues one `Do`; a 200 response breaks out;
a 429 response and a transport error `continue`; any other response falls
off the bottom of the loop body — all three leave the loop running.
`retryLoop oc i rem` is the loop from iteration `i` with `rem` iterations
left; the result is the last `Do` outcome paired with the number of `Do`
calls made. -/
def retryLoop (oc : Nat → DoResult) : Nat → Nat → DoResult × Nat
  | _, 0 => (DoResult.transportErr, 0)
  | i, rem + 1 =>
      if oc i = DoResult.resp 200 then (oc i, 1)
      else if rem = 0 then (oc i, 1)
      else ((retryLoop oc (i + 1) rem).1, (retryLoop oc (i + 1) rem).2 + 1)

/-- Number of `Do` calls `QueryBalanceWithContext` makes for a given
outcome sequence. -/
def doCalls (oc : Nat → DoResult) : Nat := (retryLoop oc 0 3).2

/-- The transport phase of `QueryBalanceWithContext`: the pre-loop context
check, the retry loop, then the post-loop `lastErr` and status checks.
`ok` means a 200 response was obtained; errors are the literal
`errors.New` strings of the code. -/
def queryTransport (cancelled : Bool) (oc : Nat → DoResult) :
    Except String Unit × Nat :=
  if cancelled then (Except.error "请求已取消", 0)
  else
    (match (retryLoop oc 0 3).1 with
      | DoResult.transportErr => Except.error "请求失败: %v"
      | DoResult.resp s =>
          if s ≠ 200 then Except.error "API 返回错误 (HTTP %d): %s"
          else Except.ok (),
     (retryLoop oc 0 3).2)

/-- **C3 counterexample** — a terminal, non-429 HTTP response (500 on every
attempt) is retried: the code performs 3 `Do` calls, not 1, before
surfacing the non-200 as a terminal error. -/
theorem retry_on_500_counterexample :
    doCalls (fun _ => DoResult.resp 500) = 3 ∧
    ¬ doCalls (fun _ => DoResult.resp 500) = 1 ∧
    queryTransport false (fun _ => DoResult.resp 500) =
      (Except.error "API 返回错误 (HTTP %d): %s", 3) := by
  refine ⟨by decide, by decide, by rfl⟩

/-- **C3 (amended)** — every non-200 outcome (429, transport error, or any
other status) leaves the loop retrying, capped at 3 attempts total: the
first 200 among the first three attempts stops the loop with exactly that
many calls, and if none of the three attempts returns 200 the loop makes
exactly 3 calls and the failure is surfaced as a terminal error, never
silently dropped. -/
theorem retry_policy_amended :
    (∀ oc : Nat → DoResult, ∀ i, i < 3 → oc i = DoResult.resp 200 →
        (∀ j, j < i → ¬ oc j = DoResult.resp 200) →
        queryTransport false oc = (Except.ok (), i + 1)) ∧
    (∀ oc : Nat → DoResult, (∀ i, i < 3 → ¬ oc i = DoResult.resp 200) →
        doCalls oc = 3 ∧
        (retryLoop oc 0 3).1 = oc 2 ∧
        ∃ msg, (queryTransport false oc).1 = Except.error msg) ∧
    (∀ oc : Nat → DoResult, doCalls oc ≤ 3) := by
  have hloop_no200 : ∀ oc : Nat → DoResult,
      (∀ i, i < 3 → ¬ oc i = DoResult.resp 200) →
      retryLoop oc 0 3 = (oc 2, 3) := by
    intro oc h
    rw [retryLoop, if_neg (h 0 (by omega)), if_neg (by omega),
        retryLoop, if_neg (h 1 (by omega)), if_neg (by omega),
        retryLoop, if_neg (h 2 (by omega)), if_pos rfl]
  refine ⟨?_, ?_, ?_⟩
  · intro oc i hi h200 hbefore
    interval_cases i
    · rw [queryTransport, if_neg (by simp), retryLoop, if_pos h200, h200]
      simp
    · rw [queryTransport, if_neg (by simp),
          retryLoop, if_neg (hbefore 0 (by omega)), if_neg (by omega),
          retryLoop, if_pos h200, h200]
      simp
    · rw [queryTransport, if_neg (by simp),
          retryLoop, if_neg (hbefore 0 (by omega)), if_neg (by omega),
          retryLoop, if_neg (hbefore 1 (by omega)), if_neg (by omega),
          retryLoop, if_pos h200, h200]
      simp
  · intro oc h
    have hl := hloop_no200 oc h
    refine ⟨by rw [doCalls, hl], by rw [hl], ?_⟩
    rw [queryTransport, if_neg (by simp), hl]
    cases h2 : oc 2 with
    | transportErr => exact ⟨"请求失败: %v", rfl⟩
    | resp s =>
        refine ⟨"API 返回错误 (HTTP %d): %s", ?_⟩
        have hs : s ≠ 200 := by
          intro hcon
          exact h 2 (by omega) (by rw [h2, hcon])
        simp [hs]
  · intro oc
    by_cases h0 : oc 0 = DoResult.resp 200
    · rw [doCalls, retryLoop, if_pos h0]; simp
    · by_cases h1 : oc 1 = DoResult.resp 200
      · rw [doCalls, retryLoop, if_neg h0, if_neg (by omega),
            retryLoop, if_pos h1]
        simp
      · rw [doCalls, retryLoop, if_neg h0, if_neg (by omega),
            retryLoop, if_neg h1, if_neg (by omega), retryLoop]
        by_cases h2 : oc 2 = DoResult.resp 200
        · rw [if_pos h2]
        · rw [if_neg h2, if_pos rfl]

/-- **C3 witness** — a 429 then a 200: two calls, success; all transport
errors: three calls, terminal error. -/
theorem retry_policy_amended_witness :
    queryTransport false
        (fun n => if n = 0 then DoResult.resp 429 else DoResult.resp 200) =
      (Except.ok (), 2) ∧
    doCalls (fun _ => DoResult.transportErr) = 3 ∧
    (queryTransport false (fun _ => DoResult.transportErr)).1 =
      Except.error "请求失败: %v" :=
  ⟨retry_policy_amended.1
      (fun n => if n = 0 then DoResult.resp 429 else DoResult.resp 200)
      1 (by omega) (by decide) (by decide),
   (retry_policy_amended.2.1 (fun _ => DoResult.transportErr) (by decide)).1,
   rfl⟩

/-! ## RateLimiter (`RateLimiter.Wait`, `tron` package)

`Wait` reads the wall clock twice: once on entry and once after its
(single) sleep.  The two samples are passed explicitly as `now1`, `now2`;
`time.Sub` yielding a non-positive duration corresponds to truncated `Nat`
subtraction giving `0`, which skips the refill exactly as the Go code
does. -/

structure RateLimiter where
  rate : Nat
  interval : Nat
  tokens : Int
  maxTokens : Nat
  lastRefill : Nat

/-- `NewRateLimiter`: the bucket starts full, capacity equals the rate. -/
def newRateLimiter (rate interval now : Nat) : RateLimiter :=
  ⟨rate, interval, rate, rate, now⟩

/-- The first refill of `Wait`: add `(elapsed / interval) * rate` tokens
when that is positive, clamping at `maxTokens` and advancing
`lastRefill`. -/
def refillAdd (rl : RateLimiter) (now : Nat) : RateLimiter :=
  if 0 < now - rl.lastRefill then
    if 0 < (now - rl.lastRefill) / rl.interval * rl.rate then
      { rl with
        tokens :=
          if (rl.maxTokens : Int) <
              rl.tokens + ((now - rl.lastRefill) / rl.interval * rl.rate : Nat)
          then (rl.maxTokens : Int)
          else rl.tokens + ((now - rl.lastRefill) / rl.interval * rl.rate : Nat),
        lastRefill := now }
    else rl
  else rl

/-- The post-sleep refill of `Wait`: whenever any time elapsed it
*overwrites* the count with `(elapsed / interval) * rate` (clamped) — it
does not add — and advances `lastRefill` even when that value is zero. -/
def refillOverwrite (rl : RateLimiter) (now : Nat) : RateLimiter :=
  if 0 < now - rl.lastRefill then
    { rl with
      tokens :=
        if (rl.maxTokens : Int) <
            ((now - rl.lastRefill) / rl.interval * rl.rate : Nat)
        then (rl.maxTokens : Int)
        else ((now - rl.lastRefill) / rl.interval * rl.rate : Nat),
      lastRefill := now }
  else rl

/-- The refill phase of `Wait`: first refill at `now1`; when the count is
then still non-positive, the worker sleeps `waitTime = interval / rate`
and refills again (overwriting) at the post-sleep clock sample.
`time.Sleep` guarantees the wake-up comes at least `waitTime` after
`now1`, so the post-sleep sample is `now1 + rl.interval / rl.rate + slack`
with `slack ≥ 0` the scheduling overshoot — the sleep's lower bound is
built into the model. -/
def waitRefill (rl : RateLimiter) (now1 slack : Nat) : RateLimiter :=
  if (refillAdd rl now1).tokens ≤ 0 then
    refillOverwrite (refillAdd rl now1) (now1 + rl.interval / rl.rate + slack)
  else refillAdd rl now1

/-- `Wait`: refill phase (sleeping at most once), then an unconditional
decrement. -/
def wait (rl : RateLimiter) (now1 slack : Nat) : RateLimiter :=
  { waitRefill rl now1 slack with
    tokens := (waitRefill rl now1 slack).tokens - 1 }

/-- **C2 counterexample** — the token count escapes `[0, capacity]` on a
realizable schedule.  With rate 2 and interval 10 the sleep lasts
`interval / rate = 5` time units.  Three `Wait` calls entered at times 0,
1 and 2 (monotonic clock, zero scheduling slack): the first two drain the
bucket without sleeping (elapsed time 1 < interval refills nothing); the
third finds the bucket empty, sleeps from time 2 to exactly time 7, where
the post-sleep refill computes `floor(7 / 10) * 2 = 0` tokens, overwrites
the count with that zero, and the unconditional decrement leaves `-1`. -/
theorem rateLimiter_negative_tokens_counterexample :
    (wait (newRateLimiter 2 10 0) 0 0).tokens = 1 ∧
    (wait (wait (newRateLimiter 2 10 0) 0 0) 1 0).tokens = 0 ∧
    (wait (wait (wait (newRateLimiter 2 10 0) 0 0) 1 0) 2 0).tokens = -1 := by
  refine ⟨by decide, by decide, by decide⟩

/-- **C2 (amended)** — the token count stays in `[-1, capacity]` (not
`[0, capacity]`): the bucket starts full at `capacity = rate`; each `Wait`
refills by `floor(elapsed / interval) * rate` clamped at the capacity and
then decrements by exactly one, but the decrement is unconditional after
the single bounded sleep, so the count can reach `-1` (see the
counterexample); for every realizable schedule — monotonic clock
(`lastRefill ≤ now1`), a configuration granting at least one time unit
per token (`0 < rate ≤ interval`, as the default 12 per second does) and
any sleep overshoot — it never goes lower and never exceeds the
capacity. -/
theorem rateLimiter_tokens_amended :
    (∀ rate interval now : Nat,
      (newRateLimiter rate interval now).tokens = (rate : Int) ∧
      (newRateLimiter rate interval now).maxTokens = rate) ∧
    (∀ (rl : RateLimiter) (now1 slack : Nat),
      0 < rl.rate → rl.rate ≤ rl.interval → rl.lastRefill ≤ now1 →
      -1 ≤ rl.tokens → rl.tokens ≤ (rl.maxTokens : Int) →
      -1 ≤ (wait rl now1 slack).tokens ∧
        (wait rl now1 slack).tokens ≤ ((wait rl now1 slack).maxTokens : Int)) ∧
    (∀ (rl : RateLimiter) (now1 slack : Nat),
      (wait rl now1 slack).tokens = (waitRefill rl now1 slack).tokens - 1) := by
  have hadd : ∀ (rl : RateLimiter) (now : Nat),
      -1 ≤ rl.tokens → rl.tokens ≤ (rl.maxTokens : Int) →
      -1 ≤ (refillAdd rl now).tokens ∧
        (refillAdd rl now).tokens ≤ ((refillAdd rl now).maxTokens : Int) := by
    intro rl now h1 h2
    rw [refillAdd]
    generalize (now - rl.lastRefill) / rl.interval * rl.rate = add
    split_ifs <;> (try dsimp only) <;> omega
  have haddLast : ∀ (rl : RateLimiter) (now : Nat),
      (refillAdd rl now).lastRefill = rl.lastRefill ∨
        (refillAdd rl now).lastRefill = now := by
    intro rl now
    rw [refillAdd]
    split_ifs <;> (try dsimp only)
    · exact Or.inr rfl
    · exact Or.inr rfl
    · exact Or.inl rfl
    · exact Or.inl rfl
  have hover : ∀ (rl : RateLimiter) (now : Nat),
      rl.lastRefill < now →
      0 ≤ (refillOverwrite rl now).tokens ∧
      (refillOverwrite rl now).tokens ≤
        ((refillOverwrite rl now).maxTokens : Int) := by
    intro rl now h1
    rw [refillOverwrite, if_pos (by omega)]
    generalize (now - rl.lastRefill) / rl.interval * rl.rate = add
    split_ifs <;> dsimp only <;> omega
  refine ⟨fun rate interval now => ⟨rfl, rfl⟩, ?_, fun rl n1 sl => rfl⟩
  intro rl now1 slack hrate hri hmono h1 h2
  rw [wait, waitRefill]
  obtain ⟨ha1, ha2⟩ := hadd rl now1 h1 h2
  have hdiv : 1 ≤ rl.interval / rl.rate := (Nat.one_le_div_iff hrate).mpr hri
  have hlast : (refillAdd rl now1).lastRefill <
      now1 + rl.interval / rl.rate + slack := by
    rcases haddLast rl now1 with h | h <;> omega
  split
  · obtain ⟨ho1, ho2⟩ :=
      hover (refillAdd rl now1) (now1 + rl.interval / rl.rate + slack) hlast
    constructor <;> (try dsimp only) <;> omega
  · rename_i hgt
    constructor <;> (try dsimp only) <;> omega

/-- **C2 amended witness** — the invariant applied to a concrete limiter
(the default 12 tokens per 1000-unit interval) at a concrete clock sample
with a concrete sleep overshoot. -/
theorem rateLimiter_tokens_amended_witness :
    -1 ≤ (wait (newRateLimiter 12 1000 0) 500 7).tokens ∧
      (wait (newRateLimiter 12 1000 0) 500 7).tokens ≤
        ((wait (newRateLimiter 12 1000 0) 500 7).maxTokens : Int) :=
  rateLimiter_tokens_amended.2.1 (newRateLimiter 12 1000 0) 500 7
    (by decide) (by decide) (by decide) (by decide) (by decide)

/-! ## Credential pool (`resource/resourcefile.go`, `GetNextKey`) -/

structure APIKeyInfo where
  key : String
  used : Nat
  maxLimit : Nat
  enabled : Bool
deriving DecidableEq

structure APIKeyManager where
  keys : List APIKeyInfo
  current : Nat
  totalUsed : Nat
deriving DecidableEq

/-- The selection test of `GetNextKey`: enabled and strictly under the
usage limit. -/
def eligibleKey (ki : APIKeyInfo) : Bool :=
  ki.enabled && decide (ki.used < ki.maxLimit)

/-- Increment a credential's usage counter (`keyInfo.Used++`). -/
def bumpKey (ki : APIKeyInfo) : APIKeyInfo := { ki with used := ki.used + 1 }

def dummyKey : APIKeyInfo := ⟨"", 0, 0, false⟩

/-- The rotation loop of the multi-key branch of `GetNextKey`: starting
from `current` with `fuel` iterations left (`maxAttempts = len(keys)`),
check the credential under the cursor; if eligible, bump it, advance the
cursor past it and return its key; otherwise advance and stop upon
returning to `startIndex`.  `none` models falling through to the
all-exhausted error. -/
def getNextKeyLoop (keys : List APIKeyInfo) (startIndex : Nat) :
    Nat → Nat → Option (String × List APIKeyInfo × Nat)
  | _, 0 => none
  | current, fuel + 1 =>
      match keys[current]? with
      | none => none
      | some ki =>
          if eligibleKey ki then
            some (ki.key, keys.set current (bumpKey ki),
                  (current + 1) % keys.length)
          else if (current + 1) % keys.length = startIndex then none
          else getNextKeyLoop keys startIndex ((current + 1) % keys.length) fuel

/-- `GetNextKey`: error on an empty pool; with exactly one credential use
slot 0 directly (the cursor is not consulted or moved); with several,
run the rotation loop from the cursor. -/
def getNextKey (m : APIKeyManager) : Except String (String × APIKeyManager) :=
  if m.keys.length = 0 then Except.error "没有可用的 API Key"
  else if m.keys.length = 1 then
    match m.keys[0]? with
    | some ki =>
        if eligibleKey ki then
          Except.ok (ki.key,
            { m with
              keys := m.keys.set 0 (bumpKey ki),
              totalUsed := m.totalUsed + 1 })
        else Except.error "API Key 已达到使用上限"
    | none => Except.error "没有可用的 API Key"
  else
    match getNextKeyLoop m.keys m.current m.current m.keys.length with
    | some (k, ks, cur) => Except.ok (k, ⟨ks, cur, m.totalUsed + 1⟩)
    | none => Except.error "所有 API Key 都已达到使用上限"

/-! ### Lemmas for C4 -/

/-- Advancing a reduced cursor by one, modulo the pool size. -/
theorem succ_mod_shift (n a : Nat) (h2 : 2 ≤ n) :
    (a % n + 1) % n = (a + 1) % n := by
  conv_rhs => rw [Nat.add_mod]
  rw [Nat.mod_eq_of_lt (show 1 < n by omega)]

/-- The wrap test of the loop detects exactly the full circle. -/
theorem wrap_iff (n start d : Nat) (h2 : 2 ≤ n) (hs : start < n) (hd : d < n) :
    ((start + d + 1) % n = start) ↔ d + 1 = n := by
  constructor
  · intro h
    have hmod : start % n = (start + d + 1) % n := by
      rw [h, Nat.mod_eq_of_lt hs]
    have hdvd : n ∣ start + d + 1 - start :=
      (Nat.modEq_iff_dvd' (by omega)).mp hmod
    have hsub : start + d + 1 - start = d + 1 := by omega
    rw [hsub] at hdvd
    have := Nat.le_of_dvd (by omega) hdvd
    omega
  · intro h
    have heq : start + d + 1 = start + n := by omega
    rw [heq, Nat.add_mod_right, Nat.mod_eq_of_lt hs]

/-- If every credential on the remaining arc is ineligible, the loop comes
back to its starting point and reports no credential. -/
theorem getNextKeyLoop_none (keys : List APIKeyInfo) (start : Nat)
    (h2 : 2 ≤ keys.length) (hs : start < keys.length) :
    ∀ fuel d : Nat, d < keys.length → fuel = keys.length - d →
    (∀ j, j < fuel →
      eligibleKey (keys.getD ((start + d + j) % keys.length) dummyKey) = false) →
    getNextKeyLoop keys start ((start + d) % keys.length) fuel = none := by
  intro fuel
  induction fuel with
  | zero => intro d hd hf _; omega
  | succ f ih =>
    intro d hd hf hall
    have hcur : (start + d) % keys.length < keys.length :=
      Nat.mod_lt _ (by omega)
    rw [getNextKeyLoop, List.getElem?_eq_getElem hcur]
    have h0 := hall 0 (by omega)
    rw [Nat.add_zero] at h0
    rw [List.getD_eq_getElem _ _ hcur] at h0
    dsimp only
    rw [if_neg (by simp [h0])]
    rw [succ_mod_shift _ _ h2]
    by_cases hwrap : (start + d + 1) % keys.length = start
    · rw [if_pos hwrap]
    · rw [if_neg hwrap]
      have hd1 : d + 1 < keys.length := by
        have := (wrap_iff keys.length start d h2 hs hd).not.mp hwrap
        omega
      have harg : ∀ j : Nat, start + d + (j + 1) = start + (d + 1) + j := by
        intro j; omega
      have hall2 : ∀ j, j < f →
          eligibleKey
            (keys.getD ((start + (d + 1) + j) % keys.length) dummyKey) =
            false := by
        intro j hj
        have := hall (j + 1) (by omega)
        rwa [harg j] at this
      exact ih (d + 1) hd1 (by omega) hall2

/-- The loop returns the first eligible credential on the arc from the
cursor, bumps it and advances the cursor past it. -/
theorem getNextKeyLoop_some (keys : List APIKeyInfo) (start : Nat)
    (h2 : 2 ≤ keys.length) (hs : start < keys.length) :
    ∀ fuel d j : Nat, d < keys.length → fuel = keys.length - d → j < fuel →
    eligibleKey (keys.getD ((start + d + j) % keys.length) dummyKey) = true →
    (∀ j2, j2 < j →
      eligibleKey (keys.getD ((start + d + j2) % keys.length) dummyKey) = false) →
    getNextKeyLoop keys start ((start + d) % keys.length) fuel =
      some ((keys.getD ((start + d + j) % keys.length) dummyKey).key,
            keys.set ((start + d + j) % keys.length)
              (bumpKey (keys.getD ((start + d + j) % keys.length) dummyKey)),
            ((start + d + j) % keys.length + 1) % keys.length) := by
  intro fuel
  induction fuel with
  | zero => intro d j hd hf hj _ _; omega
  | succ f ih =>
    intro d j hd hf hj helig hbefore
    have hcur : (start + d) % keys.length < keys.length :=
      Nat.mod_lt _ (by omega)
    rw [getNextKeyLoop, List.getElem?_eq_getElem hcur]
    cases j with
    | zero =>
      rw [Nat.add_zero] at helig
      rw [List.getD_eq_getElem _ _ hcur] at helig
      dsimp only
      rw [if_pos helig]
      simp only [Nat.add_zero]
      rw [List.getD_eq_getElem _ _ hcur]
    | succ j1 =>
      have h0 := hbefore 0 (by omega)
      rw [Nat.add_zero] at h0
      rw [List.getD_eq_getElem _ _ hcur] at h0
      dsimp only
      rw [if_neg (by simp [h0])]
      rw [succ_mod_shift _ _ h2]
      have hwrap : ¬ (start + d + 1) % keys.length = start := by
        intro hcon
        have := (wrap_iff keys.length start d h2 hs hd).mp hcon
        omega
      rw [if_neg hwrap]
      have hd1 : d + 1 < keys.length := by
        have := (wrap_iff keys.length start d h2 hs hd).not.mp hwrap
        omega
      have harg : ∀ i : Nat, start + d + (i + 1) = start + (d + 1) + i := by
        intro i; omega
      have helig2 :
          eligibleKey
            (keys.getD ((start + (d + 1) + j1) % keys.length) dummyKey) =
            true := by
        rw [← harg j1]; exact helig
      have hbefore2 : ∀ j2, j2 < j1 →
          eligibleKey
            (keys.getD ((start + (d + 1) + j2) % keys.length) dummyKey) =
            false := by
        intro j2 hj2
        rw [← harg j2]
        exact hbefore (j2 + 1) (by omega)
      have hrec := ih (d + 1) j1 hd1 (by omega) (by omega) helig2 hbefore2
      rw [show start + d + 1 = start + (d + 1) from by omega, hrec]
      simp only [harg j1]

/-- Whenever the loop returns a credential, that credential was eligible —
enabled and strictly under its limit — and is bumped in place, the new
cursor one past it. -/
theorem getNextKeyLoop_ok_inv (keys : List APIKeyInfo) (start : Nat) :
    ∀ fuel cur k ks nc,
    getNextKeyLoop keys start cur fuel = some (k, ks, nc) →
    ∃ i, i < keys.length ∧
      eligibleKey (keys.getD i dummyKey) = true ∧
      k = (keys.getD i dummyKey).key ∧
      ks = keys.set i (bumpKey (keys.getD i dummyKey)) ∧
      nc = (i + 1) % keys.length := by
  intro fuel
  induction fuel with
  | zero => intro cur k ks nc h; rw [getNextKeyLoop] at h; cases h
  | succ f ih =>
    intro cur k ks nc h
    rw [getNextKeyLoop] at h
    cases hget : keys[cur]? with
    | none => rw [hget] at h; cases h
    | some ki =>
      rw [hget] at h
      dsimp only at h
      obtain ⟨hcur, hki⟩ := List.getElem?_eq_some_iff.mp hget
      by_cases helig : eligibleKey ki = true
      · rw [if_pos helig] at h
        simp only [Option.some.injEq, Prod.mk.injEq] at h
        obtain ⟨h1, h2, h3⟩ := h
        refine ⟨cur, hcur, ?_, ?_, ?_, ?_⟩
        · rw [List.getD_eq_getElem _ _ hcur, hki]; exact helig
        · rw [List.getD_eq_getElem _ _ hcur, hki]; exact h1.symm
        · rw [List.getD_eq_getElem _ _ hcur, hki]; exact h2.symm
        · exact h3.symm
      · rw [if_neg helig] at h
        by_cases hwrap : (cur + 1) % keys.length = start
        · rw [if_pos hwrap] at h; cases h
        · rw [if_neg hwrap] at h
          exact ih _ _ _ _ h

/-- **C4** — `GetNextKey` never hands out a credential at its usage limit:
every successful call selects an enabled, strictly-under-limit credential
and bumps it.  A single-credential pool with limit `L` serves each of the
first `L` calls (counter `j` going to `j + 1`) and fails with the
exhausted error after the `L`-th; with several credentials the scan starts
at the rotation cursor, wraps at most once around, selects the first
eligible credential, bumps it and advances the cursor past it, and fails
with the exhausted error exactly when no credential is eligible. -/
theorem getNextKey_spec :
    (∀ (m : APIKeyManager) (k : String) (m2 : APIKeyManager),
      getNextKey m = Except.ok (k, m2) →
      ∃ i, i < m.keys.length ∧
        eligibleKey (m.keys.getD i dummyKey) = true ∧
        k = (m.keys.getD i dummyKey).key ∧
        m2.keys = m.keys.set i (bumpKey (m.keys.getD i dummyKey))) ∧
    (∀ (key : String) (L j t cur : Nat), j < L →
      getNextKey ⟨[⟨key, j, L, true⟩], cur, t⟩ =
        Except.ok (key, ⟨[⟨key, j + 1, L, true⟩], cur, t + 1⟩)) ∧
    (∀ (key : String) (L t cur : Nat),
      getNextKey ⟨[⟨key, L, L, true⟩], cur, t⟩ =
        Except.error "API Key 已达到使用上限") ∧
    (∀ (keys : List APIKeyInfo) (cur t : Nat),
      2 ≤ keys.length → cur < keys.length →
      (∀ j, j < keys.length →
        eligibleKey (keys.getD ((cur + j) % keys.length) dummyKey) = false) →
      getNextKey ⟨keys, cur, t⟩ =
        Except.error "所有 API Key 都已达到使用上限") ∧
    (∀ (keys : List APIKeyInfo) (cur t j : Nat),
      2 ≤ keys.length → cur < keys.length → j < keys.length →
      eligibleKey (keys.getD ((cur + j) % keys.length) dummyKey) = true →
      (∀ j2, j2 < j →
        eligibleKey (keys.getD ((cur + j2) % keys.length) dummyKey) = false) →
      getNextKey ⟨keys, cur, t⟩ =
        Except.ok ((keys.getD ((cur + j) % keys.length) dummyKey).key,
          ⟨keys.set ((cur + j) % keys.length)
              (bumpKey (keys.getD ((cur + j) % keys.length) dummyKey)),
            ((cur + j) % keys.length + 1) % keys.length,
            t + 1⟩)) := by
  refine ⟨?_, ?_, ?_, ?_, ?_⟩
  · intro m k m2 h
    rw [getNextKey] at h
    by_cases h0 : m.keys.length = 0
    · rw [if_pos h0] at h; cases h
    · rw [if_neg h0] at h
      by_cases h1 : m.keys.length = 1
      · rw [if_pos h1] at h
        have hlt : 0 < m.keys.length := by omega
        rw [List.getElem?_eq_getElem hlt] at h
        dsimp only at h
        by_cases helig : eligibleKey m.keys[0] = true
        · rw [if_pos helig] at h
          simp only [Except.ok.injEq, Prod.mk.injEq] at h
          obtain ⟨hk, hm⟩ := h
          refine ⟨0, hlt, ?_, ?_, ?_⟩
          · rw [List.getD_eq_getElem _ _ hlt]; exact helig
          · rw [List.getD_eq_getElem _ _ hlt]; exact hk.symm
          · rw [List.getD_eq_getElem _ _ hlt, ← hm]
        · rw [if_neg helig] at h; cases h
      · rw [if_neg h1] at h
        cases hloop : getNextKeyLoop m.keys m.current m.current m.keys.length with
        | none => rw [hloop] at h; cases h
        | some res =>
          obtain ⟨k0, ks0, nc0⟩ := res
          rw [hloop] at h
          dsimp only at h
          simp only [Except.ok.injEq, Prod.mk.injEq] at h
          obtain ⟨hk, hm⟩ := h
          obtain ⟨i, hi, he, hke, hse, _⟩ :=
            getNextKeyLoop_ok_inv m.keys m.current m.keys.length _ _ _ _ hloop
          exact ⟨i, hi, he, by rw [← hk]; exact hke, by rw [← hm]; exact hse⟩
  · intro key L j t cur hj
    rw [getNextKey]
    simp [eligibleKey, bumpKey, hj]
  · intro key L t cur
    rw [getNextKey]
    simp [eligibleKey]
  · intro keys cur t h2 hcur hall
    have harg : ∀ j : Nat, cur + 0 + j = cur + j := by intro j; omega
    have hall2 : ∀ j, j < keys.length →
        eligibleKey (keys.getD ((cur + 0 + j) % keys.length) dummyKey) =
          false := by
      intro j hj; rw [harg j]; exact hall j hj
    have hnone := getNextKeyLoop_none keys cur h2 hcur keys.length 0
      (by omega) (by omega) hall2
    rw [show (cur + 0) % keys.length = cur from by
      rw [Nat.add_zero, Nat.mod_eq_of_lt hcur]] at hnone
    rw [getNextKey, if_neg (by dsimp only; omega), if_neg (by dsimp only; omega)]
    dsimp only
    rw [hnone]
  · intro keys cur t j h2 hcur hj helig hbefore
    have harg : ∀ i : Nat, cur + 0 + i = cur + i := by intro i; omega
    have helig2 : eligibleKey
        (keys.getD ((cur + 0 + j) % keys.length) dummyKey) = true := by
      rw [harg j]; exact helig
    have hbefore2 : ∀ j2, j2 < j →
        eligibleKey (keys.getD ((cur + 0 + j2) % keys.length) dummyKey) =
          false := by
      intro j2 hj2; rw [harg j2]; exact hbefore j2 hj2
    have hsome := getNextKeyLoop_some keys cur h2 hcur keys.length 0 j
      (by omega) (by omega) (by omega) helig2 hbefore2
    rw [show (cur + 0) % keys.length = cur from by
      rw [Nat.add_zero, Nat.mod_eq_of_lt hcur]] at hsome
    simp only [harg j] at hsome
    rw [getNextKey, if_neg (by dsimp only; omega), if_neg (by dsimp only; omega)]
    dsimp only
    rw [hsome]

/-- **C4 witness** — a single-credential pool with limit 2 serves calls at
counters 0 and 1 and is exhausted at 2; a three-credential pool whose first
two entries are over-limit or disabled serves the third and advances the
cursor past it. -/
theorem getNextKey_spec_witness :
    getNextKey ⟨[⟨"k1", 0, 2, true⟩], 0, 0⟩ =
      Except.ok ("k1", ⟨[⟨"k1", 1, 2, true⟩], 0, 1⟩) ∧
    getNextKey ⟨[⟨"k1", 1, 2, true⟩], 0, 1⟩ =
      Except.ok ("k1", ⟨[⟨"k1", 2, 2, true⟩], 0, 2⟩) ∧
    getNextKey ⟨[⟨"k1", 2, 2, true⟩], 0, 2⟩ =
      Except.error "API Key 已达到使用上限" ∧
    getNextKey ⟨[⟨"a", 5, 5, true⟩, ⟨"b", 0, 5, false⟩, ⟨"c", 1, 9, true⟩], 0, 7⟩ =
      Except.ok ("c",
        ⟨[⟨"a", 5, 5, true⟩, ⟨"b", 0, 5, false⟩, ⟨"c", 2, 9, true⟩], 0, 8⟩) :=
  ⟨getNextKey_spec.2.1 "k1" 2 0 0 0 (by omega),
   getNextKey_spec.2.1 "k1" 2 1 1 0 (by omega),
   getNextKey_spec.2.2.1 "k1" 2 2 0,
   by
    have h := getNextKey_spec.2.2.2.2
      [⟨"a", 5, 5, true⟩, ⟨"b", 0, 5, false⟩, ⟨"c", 1, 9, true⟩] 0 7 2
      (by decide) (by decide) (by decide) (by decide) (by decide)
    simpa using h⟩

/-! ## Query orchestrator (`core/query.go`)

`QueryAddresses` initialises one `"pending"` result per address, then runs
a dispatcher goroutine feeding an unbuffered channel and `maxConcurrent`
workers.  For `maxConcurrent = 1` the execution is sequential except for
two nondeterministic choices, which are passed in explicitly:

* `cancelAfter` — cancellation becomes visible from the moment the worker
  has completed that many jobs (with concurrency 1 the jobs complete in
  index order);
* `sendChoice i` — once cancellation is visible, the dispatcher's
  `select` between `ctx.Done()` and `jobs <- i` has both cases ready and
  Go picks one at random: `true` means the send wins (the worker then
  receives index `i`, sees the cancelled context and marks the result
  `"cancelled"`), `false` means `Done` wins (the dispatcher stops, the
  channel closes and every remaining result stays `"pending"`);
* `outcome i` — whether the query for address `i` succeeds (`"success"`)
  or fails (`"error"`, covering both a `QueryBalance` error and a
  `GetNextKey` failure).

`runSeq` returning a list is the model of `run` returning: the function is
total, so every schedule terminates with `n` results. -/

def runSeqAux (cancelAfter : Nat) (sendChoice outcome : Nat → Bool) :
    Nat → Nat → List String
  | _, 0 => []
  | i, rem + 1 =>
      if cancelAfter ≤ i then
        if sendChoice i then
          "cancelled" :: runSeqAux cancelAfter sendChoice outcome (i + 1) rem
        else List.replicate (rem + 1) "pending"
      else
        (if outcome i then "success" else "error") ::
          runSeqAux cancelAfter sendChoice outcome (i + 1) rem

/-- The result statuses `QueryAddresses` leaves behind for `n` addresses
with concurrency 1 under the given schedule. -/
def runSeq (n cancelAfter : Nat) (sendChoice outcome : Nat → Bool) :
    List String :=
  runSeqAux cancelAfter sendChoice outcome 0 n

/-- **C1 counterexample** — five addresses, concurrency 1, cancellation
visible after the first completes: under the schedule in which the
dispatcher's `select` takes the `Done` branch, `run` returns with one
success and four results still `"pending"` — not four `"cancelled"`, and
`"pending"` is not a terminal state. -/
theorem run_cancellation_counterexample :
    runSeq 5 1 (fun _ => false) (fun _ => true) =
      ["success", "pending", "pending", "pending", "pending"] ∧
    (runSeq 5 1 (fun _ => false) (fun _ => true)).count "cancelled" = 0 ∧
    (runSeq 5 1 (fun _ => true) (fun _ => true)).count "cancelled" = 4 := by
  refine ⟨by decide, by decide, by decide⟩

/-- Once cancellation is visible, the remaining results form a block of
`"cancelled"` markers followed by a block of untouched `"pending"`
entries. -/
theorem runSeqAux_suffix (cancelAfter : Nat) (sendChoice outcome : Nat → Bool) :
    ∀ (rem i : Nat), cancelAfter ≤ i →
    ∃ k, k ≤ rem ∧
      runSeqAux cancelAfter sendChoice outcome i rem =
        List.replicate k "cancelled" ++ List.replicate (rem - k) "pending" := by
  intro rem
  induction rem with
  | zero => intro i _; exact ⟨0, by omega, rfl⟩
  | succ r ih =>
    intro i hi
    rw [runSeqAux, if_pos hi]
    by_cases hsend : sendChoice i = true
    · rw [if_pos hsend]
      obtain ⟨k, hk, heq⟩ := ih (i + 1) (by omega)
      refine ⟨k + 1, by omega, ?_⟩
      rw [heq]
      simp [List.replicate_succ]
    · rw [if_neg hsend]
      exact ⟨0, by omega, by simp⟩

/-- The full shape of a run under any schedule. -/
theorem runSeqAux_shape (cancelAfter : Nat) (sendChoice outcome : Nat → Bool) :
    ∀ (rem i : Nat),
    ∃ k, k ≤ rem - min (cancelAfter - i) rem ∧
      runSeqAux cancelAfter sendChoice outcome i rem =
        (List.range' i (min (cancelAfter - i) rem)).map
          (fun idx => if outcome idx then "success" else "error") ++
        (List.replicate k "cancelled" ++
         List.replicate (rem - min (cancelAfter - i) rem - k) "pending") := by
  intro rem
  induction rem with
  | zero => intro i; exact ⟨0, by omega, by simp [runSeqAux]⟩
  | succ r ih =>
    intro i
    by_cases hi : cancelAfter ≤ i
    · have hmin : min (cancelAfter - i) (r + 1) = 0 := by omega
      obtain ⟨k, hk, heq⟩ :=
        runSeqAux_suffix cancelAfter sendChoice outcome (r + 1) i hi
      refine ⟨k, by omega, ?_⟩
      rw [heq, hmin]
      simp
    · have hlt : i < cancelAfter := by omega
      have hmin : min (cancelAfter - i) (r + 1) =
          min (cancelAfter - (i + 1)) r + 1 := by omega
      obtain ⟨k, hk, heq⟩ := ih (i + 1)
      refine ⟨k, by omega, ?_⟩
      rw [runSeqAux, if_neg (by omega), heq, hmin, List.range']
      simp only [List.map_cons, List.cons_append]
      have hpend : r + 1 - (min (cancelAfter - (i + 1)) r + 1) - k =
          r - min (cancelAfter - (i + 1)) r - k := by omega
      rw [hpend]

/-- **C1 (amended)** — for `n` addresses with concurrency 1 and
cancellation visible after `cancelAfter` completions, `run` returns `n`
results: every address processed before the signal keeps its
success-or-error result, and the remaining addresses split into a block
marked `"cancelled"` (those the dispatcher still handed to the worker
after the signal) followed by a block left `"pending"` (those never
dispatched because the dispatcher observed the signal first); which split
occurs depends on the race, so four `"cancelled"` markers are one possible
outcome among `pending`/`cancelled` mixtures, not the guaranteed one. -/
theorem run_cancellation_amended :
    ∀ (n cancelAfter : Nat) (sendChoice outcome : Nat → Bool),
      (runSeq n cancelAfter sendChoice outcome).length = n ∧
      ∃ k, k ≤ n - min cancelAfter n ∧
        runSeq n cancelAfter sendChoice outcome =
          (List.range (min cancelAfter n)).map
            (fun i => if outcome i then "success" else "error") ++
          (List.replicate k "cancelled" ++
           List.replicate (n - min cancelAfter n - k) "pending") := by
  intro n cancelAfter sendChoice outcome
  obtain ⟨k, hk, heq⟩ := runSeqAux_shape cancelAfter sendChoice outcome n 0
  have hmin : min (cancelAfter - 0) n = min cancelAfter n := by omega
  rw [hmin] at hk heq
  constructor
  · rw [runSeq, heq]
    simp
    omega
  · refine ⟨k, hk, ?_⟩
    rw [runSeq, heq, List.range_eq_range']

/-- One per-address result (`QueryResult` in `core/query.go`); the status
strings are the literals of the Go code: `"pending"`, `"success"`,
`"error"`, `"cancelled"`. -/
structure QueryResult where
  address : String
  balance : String
  status : String
  error : String
deriving DecidableEq

/-- `GetStats`: total is the number of results; the loop counts a result
as succeeded only when its status is `"success"` and as failed only when
it is `"error"`. -/
def getStats (rs : List QueryResult) : Nat × Nat × Nat :=
  (rs.length,
   rs.foldl (fun acc r => if r.status == "success" then acc + 1 else acc) 0,
   rs.foldl (fun acc r => if r.status == "error" then acc + 1 else acc) 0)

theorem foldl_count (p : QueryResult → Bool) :
    ∀ (rs : List QueryResult) (acc : Nat),
      rs.foldl (fun a r => if p r then a + 1 else a) acc = acc + rs.countP p := by
  intro rs
  induction rs with
  | nil => intro acc; simp
  | cons r t ih =>
    intro acc
    rw [List.foldl_cons, List.countP_cons]
    by_cases hp : p r = true
    · rw [if_pos hp, ih, hp]
      simp
      omega
    · rw [if_neg hp, ih]
      simp [hp]

theorem countP_status_le (l : List QueryResult) :
    l.countP (fun r => r.status == "success") +
      l.countP (fun r => r.status == "error") ≤ l.length := by
  induction l with
  | nil => simp
  | cons r t ih =>
    rw [List.countP_cons, List.countP_cons, List.length_cons]
    by_cases h1 : (r.status == "success") = true
    · have h1e : r.status = "success" := by simpa using h1
      have h2 : (r.status == "error") = false := by rw [h1e]; decide
      rw [h1, h2, if_pos rfl, if_neg (by decide)]
      omega
    · have h1f : (r.status == "success") = false := by simpa using h1
      rw [h1f, if_neg (by decide)]
      by_cases h2 : (r.status == "error") = true
      · rw [h2, if_pos rfl]
        omega
      · have h2f : (r.status == "error") = false := by simpa using h2
        rw [h2f, if_neg (by decide)]
        omega

/-- A batch cancelled midway: one success, one failure, one cancelled
marker and one untouched pending entry. -/
def cancelledBatch : List QueryResult :=
  [⟨"a1", "1.5", "success", ""⟩,
   ⟨"a2", "", "error", "boom"⟩,
   ⟨"a3", "", "cancelled", "已取消"⟩,
   ⟨"a4", "", "pending", ""⟩]

/-- **C10** — `GetStats` counts as succeeded exactly the `"success"`
results and as failed exactly the `"error"` results; `"cancelled"` and
`"pending"` results are part of the total but of neither count, so after a
cancelled batch succeeded + failed is strictly less than total. -/
theorem getStats_spec :
    (∀ l : List QueryResult,
      (getStats l).1 = l.length ∧
      (getStats l).2.1 = l.countP (fun r => r.status == "success") ∧
      (getStats l).2.2 = l.countP (fun r => r.status == "error") ∧
      (getStats l).2.1 + (getStats l).2.2 ≤ l.length) ∧
    getStats cancelledBatch = (4, 1, 1) ∧
    (getStats cancelledBatch).2.1 + (getStats cancelledBatch).2.2 <
      (getStats cancelledBatch).1 := by
  refine ⟨?_, by decide, by decide⟩
  intro l
  have hs := foldl_count (fun r => r.status == "success") l 0
  have he := foldl_count (fun r => r.status == "error") l 0
  have hsum := countP_status_le l
  refine ⟨rfl, ?_, ?_, ?_⟩
  · rw [getStats]
    dsimp only
    rw [hs]
    omega
  · rw [getStats]
    dsimp only
    rw [he]
    omega
  · rw [getStats]
    dsimp only
    rw [hs, he]
    omega

end UsdtChecker

